import Mathlib

/-!
Verification of the trie-based router of the ree HTTP framework and dispatch engine.

The Rust sources embedded here are core/src/router.rs (Router: parse_pattern,
add_route, get_route, handle, get_all_routes, handle_request) and src/ree.rs
(RouterGroup, Engine).  Rust HashMap values are modelled as association lists
whose insert operation replaces the value stored at an existing key in place
and appends a fresh key at the end; lookup returns the first binding.  Strings
are Lean strings, and the character-level helpers below mirror the Rust string
operations (split on a slash, starts_with, strip_prefix, join).

The trie node type (crate trie::Node, used by router.rs but whose module is
not part of the embedded sources) and the middleware chain builder are
modelled from the specification, as marked on each such definition.
-/

set_option maxRecDepth 8000

namespace ReeSpec

/-- Lookup in an association list: the first binding for the key, as with a
Rust HashMap get. -/
def lookupA {α : Type} (k : String) : List (String × α) → Option α
  | [] => none
  | e :: rest => if e.1 = k then some e.2 else lookupA k rest

/-- Insert into an association list with Rust HashMap insert semantics: the
value at an existing key is replaced in place, a fresh key is appended. -/
def insertA {α : Type} (k : String) (v : α) : List (String × α) → List (String × α)
  | [] => [(k, v)]
  | e :: rest => if e.1 = k then (k, v) :: rest else e :: insertA k v rest

/-- Rust HashMap extend: insert every binding of the second map into the
first, one by one (so a colliding key receives the value of the second map). -/
def extendParams (base new : List (String × String)) : List (String × String) :=
  new.foldl (fun acc e => insertA e.1 e.2 acc) base

/-- Test whether the first character of a string is the given character,
mirroring Rust starts_with on a one-character pattern. -/
def headIs (c : Char) (s : String) : Bool :=
  match s.data with
  | [] => false
  | x :: _ => decide (x = c)

/-- Drop the first character of a string, mirroring the result of the Rust
strip_prefix call on a one-character pattern when it succeeds. -/
def tailStr (s : String) : String := String.mk s.data.tail

/-- Join a list of strings with slashes, mirroring Rust join on a slash. -/
def joinSlash : List String → String
  | [] => ""
  | [s] => s
  | s :: rest => s ++ "/" ++ joinSlash rest

/-- Split a character list at every occurrence of the separator, mirroring
Rust str::split which yields empty pieces for leading, trailing and doubled
separators. -/
def splitChar (c : Char) : List Char → List (List Char)
  | [] => [[]]
  | x :: xs =>
      if x = c then [] :: splitChar c xs
      else match splitChar c xs with
        | [] => [[x]]
        | g :: gs => (x :: g) :: gs

/-- Loop body of Router::parse_pattern: keep the non-empty pieces and stop
right after the first piece that starts with an asterisk. -/
def parseParts : List (List Char) → List String
  | [] => []
  | item :: rest =>
      if item.isEmpty then parseParts rest
      else if headIs '*' (String.mk item) then [String.mk item]
      else String.mk item :: parseParts rest

/-- Router::parse_pattern from core/src/router.rs: split the pattern on
slashes, keep non-empty parts, and break right after a part that starts
with an asterisk. -/
def parse_pattern (pattern : String) : List String :=
  parseParts (splitChar '/' pattern.data)

/-- Modelled from the spec: the trie node of the trie module of the crate, which
router.rs uses but whose source is not among the embedded files.  Spec data
model: a segment, the full pattern set only on a terminal node (empty string
standing for the absent pattern), an isParametric flag set when the segment
starts with a colon or an asterisk, and the ordered list of children. -/
inductive Node where
  | mk (segment : String) (pattern : String) (isParametric : Bool) (children : List Node)

def Node.segment : Node → String
  | .mk s _ _ _ => s

def Node.pattern : Node → String
  | .mk _ p _ _ => p

def Node.isParametric : Node → Bool
  | .mk _ _ b _ => b

def Node.children : Node → List Node
  | .mk _ _ _ cs => cs

/-- Fresh child node for a segment, with the isParametric flag of the spec. -/
def newNode (seg : String) : Node :=
  Node.mk seg "" (headIs ':' seg || headIs '*' seg) []

/-- Root node a Rust Default::default() produces: all fields empty. -/
def emptyNode : Node := Node.mk "" "" false []

/-- Test whether some child carries exactly the given segment. -/
def hasChild (seg : String) (cs : List Node) : Bool :=
  cs.any fun c => decide (c.segment = seg)

/-- Apply a function to the first child whose segment matches, leaving the
rest of the list unchanged. -/
def replaceFirst (f : Node → Node) (seg : String) : List Node → List Node
  | [] => []
  | c :: cs => if c.segment = seg then f c :: cs else c :: replaceFirst f seg cs

/-- Modelled from the spec: trie insertion (spec section 4.2).  At the end of
the segment list record the pattern on the current node; otherwise find the
child whose segment equals the current segment (appending a fresh child when
none exists) and recurse into it.  The depth argument of the spec is
represented by passing the remaining suffix of the segment list. -/
def insertAux (pat : String) : List String → Node → Node
  | [], .mk s _ b cs => .mk s pat b cs
  | seg :: rest, .mk s q b cs =>
      if hasChild seg cs then
        .mk s q b (replaceFirst (insertAux pat rest) seg cs)
      else
        .mk s q b (cs ++ [insertAux pat rest (newNode seg)])

/-- Modelled from the spec: trie search (spec section 4.3).  Terminate when
the segments are exhausted or the segment of the node starts with an asterisk,
succeeding only when the node carries a non-empty terminal pattern;
otherwise try, in child order, every child whose segment equals the current
part exactly together with every parametric child, returning the first
success. -/
def searchAux : List String → Node → Option Node
  | [], n => if n.pattern = "" then none else some n
  | part :: rest, n =>
      if headIs '*' n.segment then
        (if n.pattern = "" then none else some n)
      else
        (n.children.filter fun c => decide (c.segment = part) || c.isParametric).findSome?
          (searchAux rest)

mutual

/-- Modelled from the spec: Node collect_patterns, used by
Router::get_all_routes; it accumulates the non-empty terminal pattern of
every node of the trie. -/
def collectPatterns : Node → List String
  | .mk _ p _ cs => (if p = "" then [] else [p]) ++ collectPatternsList cs

/-- Collect the patterns of a list of nodes in order. -/
def collectPatternsList : List Node → List String
  | [] => []
  | c :: cs => collectPatterns c ++ collectPatternsList cs

end

/-- Request context of the core: the method and path of the request stand for the
embedded hyper request, and params is the mutable parameter map. -/
structure RequestCtx where
  method : String
  path : String
  params : List (String × String)

/-- Router from core/src/router.rs, parametrised by the response type: one
trie root per method and a handler table keyed by method-dash-pattern. -/
structure Router (ρ : Type) where
  roots : List (String × Node)
  handlers : List (String × (RequestCtx → ρ))

/-- Router::new. -/
def Router.new {ρ : Type} : Router ρ := ⟨[], []⟩

/-- Router::add_route: parse the pattern, insert it into the trie root of
the method (creating a default root when the method is new, as the Rust entry API
does), and store the handler under the method-dash-pattern key. -/
def Router.add_route {ρ : Type} (r : Router ρ) (method pattern : String)
    (handler : RequestCtx → ρ) : Router ρ :=
  let parts := parse_pattern pattern
  let key := method ++ "-" ++ pattern
  { roots := insertA method
      (insertAux pattern parts ((lookupA method r.roots).getD emptyNode)) r.roots,
    handlers := insertA key handler r.handlers }

/-- Loop body of the parameter extraction in Router::get_route: walk the parts
of the matched pattern in lock-step with the search parts; a part starting
with a colon binds its name to the search part at the same index, a part
starting with an asterisk binds its name to the remaining search parts
joined with slashes and stops the walk. -/
def extractLoop : List String → List String → List (String × String) → List (String × String)
  | [], _, acc => acc
  | pe :: prest, sps, acc =>
      if headIs ':' pe then extractLoop prest sps.tail (insertA (tailStr pe) (sps.headD "") acc)
      else if headIs '*' pe then insertA (tailStr pe) (joinSlash sps) acc
      else extractLoop prest sps.tail acc

/-- Router::get_route: parse the request path, search the trie root of the
method, and on success re-parse the pattern of the matched node to extract the
named and wildcard parameters. -/
def Router.get_route {ρ : Type} (r : Router ρ) (method path : String) :
    Option Node × List (String × String) :=
  let searchParts := parse_pattern path
  match lookupA method r.roots with
  | none => (none, [])
  | some root =>
      match searchAux searchParts root with
      | some node => (some node, extractLoop (parse_pattern node.pattern) searchParts [])
      | none => (none, [])

/-- Router::handle: look a handler up by key. -/
def Router.handle {ρ : Type} (r : Router ρ) (key : String) : Option (RequestCtx → ρ) :=
  lookupA key r.handlers

/-- Router::get_all_routes: every method paired with every pattern collected
from the trie root of that method. -/
def Router.get_all_routes {ρ : Type} (r : Router ρ) : List (String × String) :=
  r.roots.flatMap fun e => (collectPatterns e.2).map fun pat => (e.1, pat)

/-- Router::handle_request, with the canonical not-found response passed as
the argument nf (ResponseBuilder::not_found() in the source): resolve the
route, return nf when there is no match, otherwise extend the params of the
context with the routing params, look the handler up under the
method-dash-pattern key of the matched node, and run it, falling back to nf
when the key is missing. -/
def Router.handle_request {ρ : Type} (r : Router ρ) (nf : ρ) (ctx : RequestCtx) : ρ :=
  match r.get_route ctx.method ctx.path with
  | (none, _) => nf
  | (some node, params) =>
      let merged := extendParams ctx.params params
      let key := ctx.method ++ "-" ++ node.pattern
      match r.handle key with
      | some h => h { ctx with params := merged }
      | none => nf

/-- Response model for claims that need a concrete response type: the canonical
not-found response of the spec is the empty body with status 404, and handler
responses carry a status and a body. -/
structure Resp where
  status : Nat
  body : String
deriving DecidableEq

/-- Canonical not-found response: empty body, status 404. -/
def notFoundResp : Resp := ⟨404, ""⟩

/-- RouterGroup from src/ree.rs: a path prefix (field name prefix in the
source), a private router, and the middleware list of the group. -/
structure RouterGroup (ρ : Type) where
  pfx : String
  router : Router ρ
  middlewares : List (RequestCtx → ρ)

/-- RouterGroup::add_route. -/
def RouterGroup.add_route {ρ : Type} (g : RouterGroup ρ) (method pattern : String)
    (handler : RequestCtx → ρ) : RouterGroup ρ :=
  { g with router := g.router.add_route method pattern handler }

/-- Engine from src/ree.rs: the top-level router plus the map from prefix to
group (field name group in the source). -/
structure Engine (ρ : Type) where
  router : Router ρ
  groups : List (String × RouterGroup ρ)

/-- Engine::new. -/
def Engine.new {ρ : Type} : Engine ρ := ⟨Router.new, []⟩

/-- Engine::group: build a fresh group for the prefix, insert it into the
group map (replacing whatever was stored under that prefix), and return the
updated engine together with the group the source hands back by mutable
reference. -/
def Engine.group {ρ : Type} (e : Engine ρ) (pfx : String) : Engine ρ × RouterGroup ρ :=
  let g : RouterGroup ρ := ⟨pfx, Router.new, []⟩
  ({ e with groups := insertA pfx g e.groups }, g)

/-- Engine::add_route: register on the top-level router. -/
def Engine.add_route {ρ : Type} (e : Engine ρ) (method pattern : String)
    (handler : RequestCtx → ρ) : Engine ρ :=
  { e with router := e.router.add_route method pattern handler }

/-- Modelled from the spec: the engine-level getAllRoutes of the external
interface (spec section 6), whose engine-side source is not among the
embedded files.  It reflects every route of the unified table: the routes of the
top-level router plus, for every group, the routes of the group router with
the prefix of the group prepended to the pattern. -/
def Engine.get_all_routes {ρ : Type} (e : Engine ρ) : List (String × String) :=
  e.router.get_all_routes ++
    e.groups.flatMap fun g =>
      (g.2.router.get_all_routes).map fun mp => (mp.1, g.2.pfx ++ mp.2)

/-- Trace-based middleware model: a context is the trace of events so far and
a response is the final trace, so that execution order is observable. -/
abbrev Trace : Type := List String

/-- Modelled from the spec: a middleware receives the context and a
continuation and returns a response (spec section 3, Middleware). -/
abbrev Middleware : Type := Trace → (Trace → Trace) → Trace

/-- Modelled from the spec: the middleware chain builder of section 4.6,
compose of an empty list is the handler itself and compose of a non-empty
list lets the first middleware decide when to invoke the composition of the
rest. -/
def compose : List Middleware → (Trace → Trace) → (Trace → Trace)
  | [], h => h
  | m :: rest, h => fun ctx => m ctx (compose rest h)

/-- Middleware that records a before event, runs its continuation exactly
once, and records an after event, the normal non-short-circuiting shape. -/
def mwTrace (name : String) : Middleware :=
  fun ctx next => next (ctx ++ [name ++ "-before"]) ++ [name ++ "-after"]

/-- Terminal handler that records its own event. -/
def handlerH : Trace → Trace := fun ctx => ctx ++ ["H"]

/-- Modelled from the spec: the chain built for a matched route (spec
section 4.5 step 6): global middleware in registration order, then the
middleware of the owning group in registration order, around the handler. -/
def dispatchChain (global grp : List Middleware) (h : Trace → Trace) : Trace → Trace :=
  compose (global ++ grp) h

/-! Concrete routers, engines and contexts used by the claim instances. -/

/-- Router holding only the static wildcard route. -/
def staticRouter : Router Nat := Router.new.add_route "GET" "/static/*filepath" (fun _ => 1)

/-- Router in which the static wildcard route is registered after a
parametric route that also matches static file paths. -/
def shadowRouter : Router Nat :=
  (Router.new.add_route "GET" "/static/:a/:b" (fun _ => 1)).add_route
    "GET" "/static/*filepath" (fun _ => 2)

/-- Router whose handler echoes the parameter map it receives, so the merge
performed by handle_request is observable in the response. -/
def echoRouter : Router (List (String × String)) :=
  Router.new.add_route "GET" "/u/:k" (fun ctx => ctx.params)

/-- Context whose params were pre-seeded by earlier-run middleware: the key k
carries the value old and the routing of /u/new supplies k = new. -/
def seededCtx : RequestCtx := ⟨"GET", "/u/new", [("k", "old"), ("m", "kept")]⟩

/-- Router over the concrete response type whose handler returns a response
equal to the canonical not-found response. -/
def notFoundishRouter : Router Resp := Router.new.add_route "GET" "/" (fun _ => notFoundResp)

/-- Top-level router with a single hello route. -/
def helloRouter : Router Nat := Router.new.add_route "GET" "/hello" (fun _ => 1)

/-- Group router with a single users route. -/
def usersRouter : Router Nat := Router.new.add_route "GET" "/users" (fun _ => 2)

/-- Engine holding one top-level route and one route registered on the api
group. -/
def sampleEngine : Engine Nat := ⟨helloRouter, [("/api", ⟨"/api", usersRouter, []⟩)]⟩

/-- Engine whose api group already holds a route and a middleware, used to
observe that regrouping under the same prefix discards them. -/
def populatedEngine : Engine Nat :=
  ⟨Router.new, [("/api", ⟨"/api", usersRouter, [fun _ => 7]⟩)]⟩

/-! Association-list lemmas. -/

theorem lookupA_insertA_self {α : Type} (k : String) (v : α) (l : List (String × α)) :
    lookupA k (insertA k v l) = some v := by
  induction l with
  | nil => simp [insertA, lookupA]
  | cons e rest ih =>
      by_cases h : e.1 = k
      · simp [insertA, lookupA, h]
      · simp [insertA, lookupA, h, ih]

theorem lookupA_insertA_ne {α : Type} {k k' : String} (h : k' ≠ k) (v : α)
    (l : List (String × α)) : lookupA k (insertA k' v l) = lookupA k l := by
  induction l with
  | nil => simp [insertA, lookupA, h]
  | cons e rest ih =>
      by_cases he : e.1 = k'
      · simp [insertA, lookupA, he, h]
      · simp [insertA, lookupA, he, ih]

theorem insertA_insertA_same {α : Type} (k : String) (v w : α) (l : List (String × α)) :
    insertA k v (insertA k w l) = insertA k v l := by
  induction l with
  | nil => simp [insertA]
  | cons e rest ih =>
      by_cases h : e.1 = k
      · simp [insertA, h]
      · simp [insertA, h, ih]

theorem mem_insertA_self {α : Type} (k : String) (v : α) (l : List (String × α)) :
    (k, v) ∈ insertA k v l := by
  induction l with
  | nil => simp [insertA]
  | cons e rest ih =>
      by_cases h : e.1 = k
      · simp [insertA, h]
      · simp only [insertA, if_neg h]
        exact List.mem_cons_of_mem e ih

/-! Lemmas about pattern parsing. -/

theorem mem_parseParts_ne_empty {s : String} :
    ∀ {l : List (List Char)}, s ∈ parseParts l → s ≠ "" := by
  intro l
  induction l with
  | nil => intro h; simp [parseParts] at h
  | cons item rest ih =>
      intro h
      by_cases he : item.isEmpty
      · exact ih (by simpa [parseParts, he] using h)
      · have hne : item ≠ [] := by simpa [List.isEmpty_iff] using he
        by_cases hs : headIs '*' (String.mk item) = true
        · simp [parseParts, he, hs] at h
          subst h
          simpa [String.ext_iff] using hne
        · simp [parseParts, he, hs] at h
          rcases h with h | h
          · subst h
            simpa [String.ext_iff] using hne
          · exact ih h

theorem noStar_dropLast_parseParts {s : String} :
    ∀ {l : List (List Char)}, s ∈ (parseParts l).dropLast → headIs '*' s = false := by
  intro l
  induction l with
  | nil => intro h; simp [parseParts] at h
  | cons item rest ih =>
      intro h
      by_cases he : item.isEmpty
      · exact ih (by simpa [parseParts, he] using h)
      · by_cases hs : headIs '*' (String.mk item) = true
        · simp [parseParts, he, hs] at h
        · simp only [parseParts, if_neg he, if_neg hs] at h
          rcases hp : parseParts rest with _ | ⟨b, t⟩
          · rw [hp] at h; simp at h
          · rw [hp] at h
            rw [List.dropLast_cons₂] at h
            rcases List.mem_cons.mp h with h | h
            · subst h; exact Bool.not_eq_true _ ▸ hs
            · exact ih (by rw [hp]; exact h)

theorem mem_parse_pattern_ne_empty {s : String} {p : String}
    (h : s ∈ parse_pattern p) : s ≠ "" :=
  mem_parseParts_ne_empty h

theorem noStar_dropLast_parse_pattern {s p : String}
    (h : s ∈ (parse_pattern p).dropLast) : headIs '*' s = false :=
  noStar_dropLast_parseParts h

/-! Lemmas about the parameter merge of handle_request. -/

theorem lookupA_extendParams_of_none {k : String} :
    ∀ {new : List (String × String)} (base : List (String × String)),
      lookupA k new = none → lookupA k (extendParams base new) = lookupA k base := by
  intro new
  induction new with
  | nil => intro base _; rfl
  | cons e rest ih =>
      intro base h
      by_cases he : e.1 = k
      · simp [lookupA, he] at h
      · simp only [lookupA, if_neg he] at h
        have : extendParams base (e :: rest) = extendParams (insertA e.1 e.2 base) rest := rfl
        rw [this, ih _ h, lookupA_insertA_ne he]

theorem lookupA_extendParams_of_some {k : String} {v : String} :
    ∀ {new : List (String × String)} (base : List (String × String)),
      (new.map Prod.fst).Nodup → lookupA k new = some v →
      lookupA k (extendParams base new) = some v := by
  intro new
  induction new with
  | nil => intro base _ h; simp [lookupA] at h
  | cons e rest ih =>
      intro base hnd h
      have hstep : extendParams base (e :: rest) = extendParams (insertA e.1 e.2 base) rest := rfl
      by_cases he : e.1 = k
      · simp only [lookupA, if_pos he] at h
        have hk : lookupA k rest = none := by
          simp only [List.map_cons, List.nodup_cons] at hnd
          rw [← he] at *
          clear hstep ih
          induction rest with
          | nil => rfl
          | cons e' rest' ih' =>
              have h1 : e'.1 ≠ e.1 := by
                intro hh
                exact hnd.1 (by rw [← hh]; exact List.mem_map_of_mem Prod.fst (List.mem_cons_self e' rest'))
              simp only [lookupA, if_neg h1]
              exact ih' ⟨fun hm => hnd.1 (List.mem_cons_of_mem _ hm), hnd.2.of_cons⟩
        rw [hstep, lookupA_extendParams_of_none _ hk, ← he, lookupA_insertA_self]
        exact congrArg some (Option.some.inj h)
      · simp only [lookupA, if_neg he] at h
        simp only [List.map_cons, List.nodup_cons] at hnd
        rw [hstep]
        exact ih _ hnd.2 h

/-! Lemmas about trie insertion. -/

theorem insertAux_segment (pat : String) :
    ∀ (rest : List String) (n : Node), (insertAux pat rest n).segment = n.segment := by
  intro rest
  induction rest with
  | nil => intro n; cases n; rfl
  | cons seg rest' ih =>
      intro n; cases n with
      | mk s q b cs =>
          by_cases h : hasChild seg cs = true
          · simp [insertAux, h, Node.segment]
          · simp [insertAux, h, Node.segment]

theorem newNode_segment (seg : String) : (newNode seg).segment = seg := rfl

theorem replaceFirst_congrFun {f g : Node → Node} (h : ∀ c, f c = g c) (seg : String) :
    ∀ cs : List Node, replaceFirst f seg cs = replaceFirst g seg cs := by
  intro cs
  induction cs with
  | nil => rfl
  | cons c cs' ih =>
      by_cases hc : c.segment = seg
      · simp [replaceFirst, hc, h c]
      · simp [replaceFirst, hc, ih]

theorem hasChild_replaceFirst {f : Node → Node} (hf : ∀ c, (f c).segment = c.segment)
    (s seg : String) : ∀ cs : List Node, hasChild s (replaceFirst f seg cs) = hasChild s cs := by
  intro cs
  induction cs with
  | nil => rfl
  | cons c cs' ih =>
      by_cases hc : c.segment = seg
      · simp [replaceFirst, hasChild, hc, hf c]
      · simp only [replaceFirst, if_neg hc, hasChild, List.any_cons]
        simp only [hasChild] at ih
        rw [ih]

theorem replaceFirst_replaceFirst {f : Node → Node} (hf : ∀ c, (f c).segment = c.segment)
    (seg : String) : ∀ cs : List Node,
      replaceFirst f seg (replaceFirst f seg cs) = replaceFirst (fun c => f (f c)) seg cs := by
  intro cs
  induction cs with
  | nil => rfl
  | cons c cs' ih =>
      by_cases hc : c.segment = seg
      · simp [replaceFirst, hc, hf c]
      · simp [replaceFirst, hc, ih]

theorem replaceFirst_append_of_not_hasChild {f : Node → Node} {seg : String}
    {cs : List Node} (h : hasChild seg cs = false) (l : List Node) :
    replaceFirst f seg (cs ++ l) = cs ++ replaceFirst f seg l := by
  induction cs with
  | nil => rfl
  | cons c cs' ih =>
      simp only [hasChild, List.any_cons, Bool.or_eq_false_iff] at h
      have hc : c.segment ≠ seg := by simpa using h.1
      simp only [List.cons_append, replaceFirst, if_neg hc]
      exact congrArg (List.cons c) (ih h.2)

theorem hasChild_append (seg : String) (cs l : List Node) :
    hasChild seg (cs ++ l) = (hasChild seg cs || hasChild seg l) := by
  simp [hasChild, List.any_append]

theorem insertAux_idem (pat : String) :
    ∀ (rest : List String) (n : Node),
      insertAux pat rest (insertAux pat rest n) = insertAux pat rest n := by
  intro rest
  induction rest with
  | nil => intro n; cases n; rfl
  | cons seg rest' ih =>
      intro n; cases n with
      | mk s q b cs =>
          have hseg : ∀ c : Node, (insertAux pat rest' c).segment = c.segment :=
            insertAux_segment pat rest'
          by_cases h : hasChild seg cs = true
          · have h2 : hasChild seg (replaceFirst (insertAux pat rest') seg cs) = true := by
              rw [hasChild_replaceFirst hseg]; exact h
            simp only [insertAux, if_pos h, if_pos h2]
            rw [replaceFirst_replaceFirst hseg,
              replaceFirst_congrFun (fun c => ih c) seg cs]
          · have hb : hasChild seg cs = false := by simpa using h
            have h2 : hasChild seg (cs ++ [insertAux pat rest' (newNode seg)]) = true := by
              rw [hasChild_append, hb]
              simp [hasChild, hseg (newNode seg), newNode_segment]
            simp only [insertAux, if_neg h, if_pos h2]
            rw [replaceFirst_append_of_not_hasChild hb]
            have hmatch : (insertAux pat rest' (newNode seg)).segment = seg := by
              rw [hseg (newNode seg), newNode_segment]
            simp only [replaceFirst, if_pos hmatch]
            rw [ih (newNode seg)]

/-! Lemmas about pattern collection. -/

theorem collectPatternsList_append :
    ∀ cs l : List Node,
      collectPatternsList (cs ++ l) = collectPatternsList cs ++ collectPatternsList l := by
  intro cs l
  induction cs with
  | nil => rfl
  | cons c cs' ih => simp [collectPatternsList, ih]

theorem mem_collectPatternsList_replaceFirst {f : Node → Node} {x seg : String}
    (hx : ∀ c, x ∈ collectPatterns (f c)) :
    ∀ {cs : List Node}, hasChild seg cs = true →
      x ∈ collectPatternsList (replaceFirst f seg cs) := by
  intro cs
  induction cs with
  | nil => intro h; simp [hasChild] at h
  | cons c cs' ih =>
      intro h
      by_cases hc : c.segment = seg
      · simp only [replaceFirst, if_pos hc, collectPatternsList]
        exact List.mem_append_left _ (hx c)
      · simp only [hasChild, List.any_cons, Bool.or_eq_true] at h
        rcases h with h | h
        · exact absurd (of_decide_eq_true h) hc
        · simp only [replaceFirst, if_neg hc, collectPatternsList]
          exact List.mem_append_right _ (ih h)

theorem mem_collectPatterns_insertAux {pat : String} (hpat : pat ≠ "") :
    ∀ (rest : List String) (n : Node), pat ∈ collectPatterns (insertAux pat rest n) := by
  intro rest
  induction rest with
  | nil =>
      intro n; cases n with
      | mk s q b cs => simp [insertAux, collectPatterns, hpat]
  | cons seg rest' ih =>
      intro n; cases n with
      | mk s q b cs =>
          by_cases h : hasChild seg cs = true
          · simp only [insertAux, if_pos h, collectPatterns]
            exact List.mem_append_right _
              (mem_collectPatternsList_replaceFirst (fun c => ih c) h)
          · simp only [insertAux, if_neg h, collectPatterns]
            refine List.mem_append_right _ ?_
            rw [collectPatternsList_append]
            refine List.mem_append_right _ ?_
            simp only [collectPatternsList]
            exact List.mem_append_left _ (ih (newNode seg))

/-! Lemmas about parameter extraction. -/

theorem headIs_star_not_colon {s : String} (h : headIs '*' s = true) :
    headIs ':' s = false := by
  unfold headIs at *
  rcases hd : s.data with _ | ⟨x, xs⟩
  · rw [hd] at h
  · rw [hd] at h
    have hx : x = '*' := of_decide_eq_true h
    simp [hx]

theorem extractLoop_star {pe : String} (hstar : headIs '*' pe = true) :
    ∀ (pre : List String) (sps : List String) (acc : List (String × String)),
      (∀ x ∈ pre, headIs '*' x = false) →
      lookupA (tailStr pe) (extractLoop (pre ++ [pe]) sps acc) =
        some (joinSlash (sps.drop pre.length)) := by
  intro pre
  induction pre with
  | nil =>
      intro sps acc _
      simp [extractLoop, headIs_star_not_colon hstar, hstar, lookupA_insertA_self]
  | cons p₀ pre' ih =>
      intro sps acc hfree
      have h₀ : headIs '*' p₀ = false := hfree p₀ (List.mem_cons_self _ _)
      have hfree' : ∀ x ∈ pre', headIs '*' x = false :=
        fun x hx => hfree x (List.mem_cons_of_mem _ hx)
      have hdrop : sps.tail.drop pre'.length = sps.drop (pre'.length + 1) := by
        rw [← List.drop_one, List.drop_drop, Nat.add_comm]
      by_cases hc : headIs ':' p₀ = true
      · simp [extractLoop, hc, ih _ _ hfree', hdrop]
      · simp [extractLoop, hc, h₀, ih _ _ hfree', hdrop]

theorem get_route_params_eq {ρ : Type} {r : Router ρ} {m path : String} {node : Node}
    {params : List (String × String)}
    (h : r.get_route m path = (some node, params)) :
    params = extractLoop (parse_pattern node.pattern) (parse_pattern path) [] := by
  simp only [Router.get_route] at h
  split at h
  · simp at h
  · split at h
    · simp only [Prod.mk.injEq, Option.some.injEq] at h
      rw [← h.2, h.1]
    · simp at h

/-! Claim theorems. -/

/-- C1, counterexample: the claim that a key already present in the params of
the context keeps its pre-existing value under the merge of handle_request is
false on the code.  In seededCtx the key k was pre-seeded with the value old
by earlier-run middleware, routing of the path /u/new supplies k = new, and
the handler observes k = new: the HashMap extend call of handle_request
overwrites the pre-existing value with the routing-supplied one. -/
theorem c1_merge_counterexample :
    lookupA "k" seededCtx.params = some "old" ∧
    echoRouter.handle_request [] seededCtx = [("k", "new"), ("m", "kept")] ∧
    lookupA "k" (echoRouter.handle_request [] seededCtx) = some "new" :=
  ⟨by decide, by decide, by decide⟩

/-- C1 (amended): handle_request merges the routing parameters into the
params of the context with HashMap extend semantics: a key not supplied by
routing keeps its pre-existing value, while for a key supplied by routing the
routing value replaces any pre-existing one.  The concrete dispatch shows
both effects at once: k is overwritten by routing and m is preserved. -/
theorem c1_merge_extend_semantics :
    (∀ (base new : List (String × String)) (k : String),
        lookupA k new = none → lookupA k (extendParams base new) = lookupA k base) ∧
    (∀ (base new : List (String × String)) (k v : String),
        (new.map Prod.fst).Nodup → lookupA k new = some v →
        lookupA k (extendParams base new) = some v) ∧
    echoRouter.handle_request [] seededCtx = [("k", "new"), ("m", "kept")] :=
  ⟨fun base _ _ h => lookupA_extendParams_of_none base h,
   fun base _ _ _ hnd h => lookupA_extendParams_of_some base hnd h,
   by decide⟩

/-- Witness for C1 (amended) at a concrete input: the key m is not supplied
by the routing map, so the merge keeps its middleware-seeded binding. -/
theorem c1_merge_extend_semantics_witness :
    lookupA "m" [("k", "new")] = none ∧
    lookupA "m" (extendParams [("m", "kept")] [("k", "new")]) = lookupA "m" [("m", "kept")] :=
  ⟨by decide, c1_merge_extend_semantics.1 [("m", "kept")] [("k", "new")] "m" (by decide)⟩

/-- C2: the middleware chain builder satisfies the two defining equations of
the spec, compose of the empty list is the handler and compose of a non-empty
list lets the first middleware wrap the composition of the rest; and the
chain built for a matched route from global middleware A, B and group
middleware C around handler H runs A-before, B-before, C-before, H, C-after,
B-after, A-after on a normal non-short-circuiting request. -/
theorem c2_compose_order :
    (∀ h : Trace → Trace, compose [] h = h) ∧
    (∀ (m : Middleware) (rest : List Middleware) (h : Trace → Trace),
        compose (m :: rest) h = fun ctx => m ctx (compose rest h)) ∧
    dispatchChain [mwTrace "A", mwTrace "B"] [mwTrace "C"] handlerH [] =
      ["A-before", "B-before", "C-before", "H", "C-after", "B-after", "A-after"] :=
  ⟨fun _ => rfl, fun _ _ _ => rfl, by decide⟩

/-- C3: on the engine holding the top-level hello route and the users route
of the api group, getAllRoutes returns both routes with the group pattern
prefixed by the group prefix; and in general every route added to a router
appears in its get_all_routes, and every route of a group listed in the
engine appears, prefixed, in the engine-level table. -/
theorem c3_get_all_routes :
    sampleEngine.get_all_routes = [("GET", "/hello"), ("GET", "/api/users")] ∧
    (∀ (ρ : Type) (r : Router ρ) (m p : String) (h : RequestCtx → ρ), p ≠ "" →
        (m, p) ∈ (r.add_route m p h).get_all_routes) ∧
    (∀ (ρ : Type) (e : Engine ρ) (k : String) (g : RouterGroup ρ) (m p : String),
        (k, g) ∈ e.groups → (m, p) ∈ g.router.get_all_routes →
        (m, g.pfx ++ p) ∈ e.get_all_routes) := by
  refine ⟨by decide, ?_, ?_⟩
  · intro ρ r m p h hp
    unfold Router.add_route Router.get_all_routes
    refine List.mem_flatMap.2 ?_
    exact ⟨(m, insertAux p (parse_pattern p) ((lookupA m r.roots).getD emptyNode)),
      mem_insertA_self _ _ _,
      List.mem_map.2 ⟨p, mem_collectPatterns_insertAux hp _ _, rfl⟩⟩
  · intro ρ e k g m p hg hm
    unfold Engine.get_all_routes
    refine List.mem_append_right _ ?_
    exact List.mem_flatMap.2 ⟨(k, g), hg, List.mem_map.2 ⟨(m, p), hm, rfl⟩⟩

/-- Witness for C3 at a concrete input: a route added to the empty router
shows up in get_all_routes. -/
theorem c3_get_all_routes_witness :
    ("/x" : String) ≠ "" ∧
    ("GET", "/x") ∈ ((Router.new (ρ := Nat)).add_route "GET" "/x" (fun _ => 0)).get_all_routes :=
  ⟨by decide, c3_get_all_routes.2.1 Nat Router.new "GET" "/x" (fun _ => 0) (by decide)⟩

/-- C4, counterexample: handle_request does not return the canonical
not-found response exactly in the no-match and missing-key cases, because a
resolved handler may itself produce a response equal to the canonical one.
On notFoundishRouter the route matches and the handler key is present, yet
the returned response equals the canonical not-found response. -/
theorem c4_not_found_counterexample :
    notFoundishRouter.handle_request notFoundResp ⟨"GET", "/", []⟩ = notFoundResp ∧
    (notFoundishRouter.get_route "GET" "/").1.isSome = true ∧
    (notFoundishRouter.handle "GET-/").isSome = true :=
  ⟨rfl, rfl, rfl⟩

/-- C4 (amended): handle_request returns the canonical not-found response
when no route matches the method and path, and when a trie match exists but
no handler is stored under the derived method-dash-pattern key; in every
other case it returns the response produced by the resolved handler on the
context with merged params, a response that may itself equal the canonical
one. -/
theorem c4_not_found_cases :
    ∀ (ρ : Type) (nf : ρ) (r : Router ρ) (ctx : RequestCtx),
      ((r.get_route ctx.method ctx.path).1 = none → r.handle_request nf ctx = nf) ∧
      (∀ node params, r.get_route ctx.method ctx.path = (some node, params) →
          r.handle (ctx.method ++ "-" ++ node.pattern) = none →
          r.handle_request nf ctx = nf) ∧
      (∀ node params h, r.get_route ctx.method ctx.path = (some node, params) →
          r.handle (ctx.method ++ "-" ++ node.pattern) = some h →
          r.handle_request nf ctx = h { ctx with params := extendParams ctx.params params }) := by
  intro ρ nf r ctx
  refine ⟨?_, ?_, ?_⟩
  · intro h
    rcases hg : r.get_route ctx.method ctx.path with ⟨o, ps⟩
    rw [hg] at h
    cases o with
    | none => simp [Router.handle_request, hg]
    | some node => simp at h
  · intro node params hg hh
    simp [Router.handle_request, hg, hh]
  · intro node params h hg hh
    simp [Router.handle_request, hg, hh]

/-- Witness for C4 (amended) at a concrete input: dispatching a method with
no registered routes returns the canonical not-found value. -/
theorem c4_not_found_cases_witness :
    (helloRouter.get_route "POST" "/hello").1 = none ∧
    helloRouter.handle_request 0 ⟨"POST", "/hello", []⟩ = 0 :=
  ⟨rfl, (c4_not_found_cases Nat 0 helloRouter ⟨"POST", "/hello", []⟩).1 rfl⟩

/-- C5, counterexample: it is not true for every router in which the pattern
/static/*filepath is registered that get_route on /static/js/app.js returns
a match for that pattern.  In shadowRouter the wildcard route is registered
(its handler key is present), but the earlier-registered parametric pattern
/static/:a/:b wins the depth-first first-match search, so the match is for
the other pattern and no filepath parameter is extracted. -/
theorem c5_wildcard_counterexample :
    (shadowRouter.handle "GET-/static/*filepath").isSome = true ∧
    (shadowRouter.get_route "GET" "/static/js/app.js").1.map Node.pattern =
      some "/static/:a/:b" ∧
    lookupA "filepath" (shadowRouter.get_route "GET" "/static/js/app.js").2 = none :=
  ⟨rfl, by decide, by decide⟩

/-- C5 (amended): on the router whose only registered route is
/static/*filepath, get_route on /static/js/app.js matches that pattern and
extracts filepath = js/app.js; and in general, whenever get_route returns a
match whose pattern parses with a final segment starting with an asterisk,
that segment binds its name (the segment without the asterisk) to the
remaining request segments from the same index onward joined with slashes,
extraction stopping at the wildcard.  An earlier-registered pattern that
also matches the path can preempt the wildcard route, since search is
first-match in registration order. -/
theorem c5_wildcard_extraction :
    (staticRouter.get_route "GET" "/static/js/app.js").1.map Node.pattern =
      some "/static/*filepath" ∧
    lookupA "filepath" (staticRouter.get_route "GET" "/static/js/app.js").2 =
      some "js/app.js" ∧
    (∀ (ρ : Type) (r : Router ρ) (m path : String) (node : Node)
        (params : List (String × String)) (pre : List String) (pe : String),
        r.get_route m path = (some node, params) →
        parse_pattern node.pattern = pre ++ [pe] →
        headIs '*' pe = true →
        lookupA (tailStr pe) params =
          some (joinSlash ((parse_pattern path).drop pre.length))) := by
  refine ⟨by decide, by decide, ?_⟩
  intro ρ r m path node params pre pe hroute hparse hstar
  have hfree : ∀ x ∈ pre, headIs '*' x = false := by
    intro x hx
    refine noStar_dropLast_parse_pattern (p := node.pattern) ?_
    rw [hparse, List.dropLast_concat]
    exact hx
  rw [get_route_params_eq hroute, hparse]
  exact extractLoop_star hstar pre _ [] hfree

/-- Witness for C5 (amended) at a concrete input: the wildcard of the static
route binds filepath to the joined remainder a/b/c. -/
theorem c5_wildcard_extraction_witness :
    staticRouter.get_route "GET" "/static/a/b/c" =
      (some (Node.mk "*filepath" "/static/*filepath" true []), [("filepath", "a/b/c")]) ∧
    lookupA (tailStr "*filepath") [("filepath", "a/b/c")] =
      some (joinSlash ((parse_pattern "/static/a/b/c").drop ["static"].length)) :=
  ⟨rfl,
   c5_wildcard_extraction.2.2 Nat staticRouter "GET" "/static/a/b/c"
     (Node.mk "*filepath" "/static/*filepath" true []) [("filepath", "a/b/c")]
     ["static"] "*filepath" rfl (by decide) (by decide)⟩

/-- C6: registering the same method and pattern twice leaves the trie roots
exactly as they were after the first registration, creating no duplicate
branch, and the handler stored under the shared method-dash-pattern key is
the second one. -/
theorem c6_reregistration :
    ∀ (ρ : Type) (r : Router ρ) (m p : String) (h1 h2 : RequestCtx → ρ),
      ((r.add_route m p h1).add_route m p h2).roots = (r.add_route m p h1).roots ∧
      ((r.add_route m p h1).add_route m p h2).handle (m ++ "-" ++ p) = some h2 := by
  intro ρ r m p h1 h2
  constructor
  · show insertA m
        (insertAux p (parse_pattern p)
          ((lookupA m (insertA m
            (insertAux p (parse_pattern p) ((lookupA m r.roots).getD emptyNode))
            r.roots)).getD emptyNode))
        (insertA m (insertAux p (parse_pattern p) ((lookupA m r.roots).getD emptyNode)) r.roots) =
      insertA m (insertAux p (parse_pattern p) ((lookupA m r.roots).getD emptyNode)) r.roots
    rw [lookupA_insertA_self, Option.getD_some, insertAux_idem, insertA_insertA_same]
  · show lookupA (m ++ "-" ++ p)
        (insertA (m ++ "-" ++ p) h2 (insertA (m ++ "-" ++ p) h1 r.handlers)) = some h2
    rw [lookupA_insertA_self]

/-- C7: parse_pattern keeps the named-parameter example intact, drops the
empty segments produced by leading, trailing and doubled slashes, and in
general never returns an empty segment. -/
theorem c7_parse_pattern :
    parse_pattern "/p/:lang/doc" = ["p", ":lang", "doc"] ∧
    parse_pattern "/a//b/" = ["a", "b"] ∧
    (∀ p s : String, s ∈ parse_pattern p → s ≠ "") :=
  ⟨by decide, by decide, fun _ _ h => mem_parse_pattern_ne_empty h⟩

/-- Witness for C7 at a concrete input: the segment a of the doubled-slash
pattern is non-empty. -/
theorem c7_parse_pattern_witness :
    ("a" ∈ parse_pattern "/a//b/") ∧ ("a" : String) ≠ "" :=
  ⟨by decide, c7_parse_pattern.2.2 "/a//b/" "a" (by decide)⟩

/-- C8: parse_pattern stops right after the first segment starting with an
asterisk, silently dropping the later segments, as the mid-pattern example
shows; and in general no segment of the result other than the last one
starts with an asterisk, so a wildcard segment is always final. -/
theorem c8_wildcard_stops_parsing :
    parse_pattern "/a/*x/b/c" = ["a", "*x"] ∧
    (∀ p s : String, s ∈ (parse_pattern p).dropLast → headIs '*' s = false) :=
  ⟨by decide, fun _ _ h => noStar_dropLast_parse_pattern h⟩

/-- Witness for C8 at a concrete input: the non-final segment a of the
mid-pattern wildcard example does not start with an asterisk. -/
theorem c8_wildcard_stops_parsing_witness :
    ("a" ∈ (parse_pattern "/a/*x/b/c").dropLast) ∧ headIs '*' "a" = false :=
  ⟨by decide, c8_wildcard_stops_parsing.2 "/a/*x/b/c" "a" (by decide)⟩

/-- C9: get_route depends on the request path only through its parsed
non-empty segment list, so any two paths with the same parse resolve
identically; in particular the hello route resolves the same for /hello,
/hello/ and //hello. -/
theorem c9_slash_insensitive :
    (∀ (ρ : Type) (r : Router ρ) (m p q : String),
        parse_pattern p = parse_pattern q → r.get_route m p = r.get_route m q) ∧
    helloRouter.get_route "GET" "/hello" = helloRouter.get_route "GET" "/hello/" ∧
    helloRouter.get_route "GET" "/hello" = helloRouter.get_route "GET" "//hello" := by
  refine ⟨?_, rfl, rfl⟩
  intro ρ r m p q h
  unfold Router.get_route
  rw [h]

/-- Witness for C9 at a concrete input: a path with extra leading, doubled
and trailing slashes resolves like the plain one. -/
theorem c9_slash_insensitive_witness :
    parse_pattern "///hello//" = parse_pattern "/hello" ∧
    helloRouter.get_route "GET" "///hello//" = helloRouter.get_route "GET" "/hello" :=
  ⟨by decide, c9_slash_insensitive.1 Nat helloRouter "GET" "///hello//" "/hello" (by decide)⟩

/-- C10: calling group again with an already-used prefix stores a fresh
empty RouterGroup under that prefix, discarding the routes and middleware of
the group previously stored there, while groups under any other prefix are
unchanged. -/
theorem c10_group_reset :
    ∀ (ρ : Type) (e : Engine ρ) (pfx : String),
      lookupA pfx ((e.group pfx).1.groups) = some ⟨pfx, Router.new, []⟩ ∧
      (∀ q : String, q ≠ pfx → lookupA q ((e.group pfx).1.groups) = lookupA q e.groups) := by
  intro ρ e pfx
  refine ⟨lookupA_insertA_self _ _ _, ?_⟩
  intro q hq
  exact lookupA_insertA_ne (fun hh => hq hh.symm) _ _

/-- Witness for C10 at a concrete input: regrouping /api on the populated
engine discards the stored group (which held one route and one middleware)
and leaves the absent prefix /x unaffected. -/
theorem c10_group_reset_witness :
    ((lookupA "/api" populatedEngine.groups).map fun g => g.middlewares.length) = some 1 ∧
    lookupA "/api" ((populatedEngine.group "/api").1.groups) = some ⟨"/api", Router.new, []⟩ ∧
    (("/x" : String) ≠ "/api") ∧
    lookupA "/x" ((populatedEngine.group "/api").1.groups) = lookupA "/x" populatedEngine.groups :=
  ⟨rfl, (c10_group_reset Nat populatedEngine "/api").1, by decide,
   (c10_group_reset Nat populatedEngine "/api").2 "/x" (by decide)⟩

end ReeSpec

